import Mathlib

/-!
# rtlsdr-monitoring: the `watchusbdevices` command (`cmd/root.go`)

A shallow embedding of `watchCmd.Run`, `init` and `Execute`, together with the
parts of the Go standard library and of cobra that the command calls
(`strings.Contains`, the `%q` verb of `fmt`, required-flag validation), and the
properties of the watch loop proved about it.

Go strings and byte slices are lists of byte values.  The outside world is a
script: the list of results the successive `lsusb` invocations produce.
-/

namespace RtlsdrMonitoring

/-! ## Go strings -/

/-- A Go `string` or `[]byte`: its bytes in order. -/
abbrev Bytes := List Nat

/-- The bytes of an ASCII string literal. -/
def lit (s : String) : Bytes := s.toList.map Char.toNat

/-- Go `strings.Index` started at offset `i` of the original string: the offset
of the first place at which `substr` begins, or `-1`. -/
def indexFrom (substr : Bytes) : Bytes → Nat → Int
  | [], i => if substr = [] then (i : Int) else -1
  | c :: cs, i => if substr.isPrefixOf (c :: cs) then (i : Int) else indexFrom substr cs (i + 1)

/-- Go `strings.Index(s, substr)`: the index of the first instance of `substr`
in `s`, or `-1` if `substr` is not present in `s`. -/
def Index (s substr : Bytes) : Int := indexFrom substr s 0

/-- Go `strings.Contains(s, substr)`, which is `Index(s, substr) >= 0`. -/
def Contains (s substr : Bytes) : Bool := decide (Index s substr ≥ 0)

/-! ## The `%q` verb -/

/-- Go `utf8.RuneSelf`: bytes below it are single-byte runes. -/
def RuneSelf : Nat := 0x80

/-- Go `strconv.lowerhex[n]`, the digit of `"0123456789abcdef"` at `n`. -/
def lowerhex (n : Nat) : Nat := if n < 10 then 0x30 + n else 0x57 + n

/-- Go `strconv.appendEscapedRune` with `quote = '"'`, `ASCIIonly = false`,
`graphicOnly = false`, on a rune below `utf8.RuneSelf`: the double quote and
the backslash get a backslash, the printable runes (space to `~`) are written
as they are, and the others are written as `\a \b \f \n \r \t \v` or `\xNN`. -/
def appendEscapedRune (r : Nat) : Bytes :=
  if r = 0x22 ∨ r = 0x5C then [0x5C, r]
  else if 0x20 ≤ r ∧ r ≤ 0x7E then [r]
  else if r = 0x07 then [0x5C, 0x61]
  else if r = 0x08 then [0x5C, 0x62]
  else if r = 0x0C then [0x5C, 0x66]
  else if r = 0x0A then [0x5C, 0x6E]
  else if r = 0x0D then [0x5C, 0x72]
  else if r = 0x09 then [0x5C, 0x74]
  else if r = 0x0B then [0x5C, 0x76]
  else [0x5C, 0x78, lowerhex (r / 16), lowerhex (r % 16)]

/-- The loop of Go `strconv.appendQuotedWith` over the string.  `skip` counts
the bytes of the current rune that are still to be passed over (`s = s[width:]`).
A byte below `utf8.RuneSelf` is a rune of width 1 and goes through
`appendEscapedRune`.  A byte at or above `utf8.RuneSelf` starts the multi-byte
path (`utf8.DecodeRuneInString` and the Unicode tables behind `strconv.IsPrint`),
which is not part of this development: `multi` gives, for the rest of the
string, the text that path appends and the width it consumes. -/
def quoteFrom (multi : Bytes → Bytes × Nat) : Nat → Bytes → Bytes
  | _, [] => []
  | skip + 1, _ :: t => quoteFrom multi skip t
  | 0, b :: t =>
    if b < RuneSelf then appendEscapedRune b ++ quoteFrom multi 0 t
    else (multi (b :: t)).1 ++ quoteFrom multi ((multi (b :: t)).2 - 1) t

/-- Go `strconv.Quote(s)`, which is what the `%q` verb of `fmt` writes for a
string: `s` between double quotes, escaped with Go syntax. -/
def Quote (multi : Bytes → Bytes × Nat) (s : Bytes) : Bytes :=
  0x22 :: quoteFrom multi 0 s ++ [0x22]

/-! ## The process and its environment -/

/-- One scripted run of `exec.Command("lsusb")`: `cmdline` is what
`lsusb.String()` returns (the path `exec.LookPath` resolved, or `lsusb` when
there is none), `output` and `err` are the two results of `lsusb.Output()`,
`err` being the text of the error (`err.Error()`) when it is not nil. -/
structure Lsusb where
  cmdline : Bytes
  output : Bytes
  err : Option Bytes
  deriving DecidableEq

/-- The ticker of `time.NewTicker`: not created, created and running, or
stopped by `ticker.Stop()`. -/
inductive Ticker where
  | absent
  | active
  | stopped
  deriving DecidableEq

/-- What the process has done so far: the number of `lsusb.Output()` calls, the
number of values received from `ticker.C`, the text `Run` wrote to
`cmd.ErrOrStderr()`, and the state of the ticker. -/
structure Proc where
  execs : Nat
  ticks : Nat
  stderr : Bytes
  ticker : Ticker
  deriving DecidableEq

/-- The process at the start of `Run`. -/
def Proc.start : Proc := ⟨0, 0, [], Ticker.absent⟩

/-- The channel `ch` of `Run`: `ticker.C`, which delivers a value every period
and is never closed, or the channel closed on creation of one-shot mode. -/
inductive Chan where
  | tickerC
  | closed
  deriving DecidableEq

/-- How control leaves a piece of code: it returns, it calls `os.Exit(code)`
(the process ends at once and deferred calls do not run), or it is still
running when the script of `lsusb` results is used up. -/
inductive Ctl where
  | ret
  | osExit (code : Nat)
  | running
  deriving DecidableEq

/-- The flags of `watchusbdevices` as given on the command line: `none` for a
flag that was omitted.  `frequency` is a `time.Duration`, in nanoseconds. -/
structure Flags where
  device_name : Option Bytes
  frequency : Option Int
  deriving DecidableEq

/-- `cmd.Flags().GetString("device_name")`: the value given, or the default `""`
declared in `init`.  The flag is declared as a string, so the error is nil. -/
def GetString (flags : Flags) : Bytes := flags.device_name.getD []

/-- `cmd.Flags().GetDuration("frequency")`: the value given, or the default `0`
declared in `init`.  The flag is declared as a duration, so the error is nil. -/
def GetDuration (flags : Flags) : Int := flags.frequency.getD 0

/-! ## `watchCmd.Run` -/

/-- The text of `fmt.Fprintf(cmd.ErrOrStderr(), "%q error: %v\n", lsusb.String(), err)`. -/
def errorText (multi : Bytes → Bytes × Nat) (r : Lsusb) (e : Bytes) : Bytes :=
  Quote multi r.cmdline ++ lit " error: " ++ e ++ [0x0A]

/-- The text of `fmt.Fprintf(cmd.ErrOrStderr(), "%q output:\n%s\n", lsusb.String(), output)`. -/
def outputText (multi : Bytes → Bytes × Nat) (r : Lsusb) : Bytes :=
  Quote multi r.cmdline ++ lit " output:" ++ [0x0A] ++ r.output ++ [0x0A]

/-- One pass through the body of the `for` loop of `Run`, with `r` the result of
this pass's `lsusb` invocation.  The second component is `none` when the loop
goes round again. -/
def iter (multi : Bytes → Bytes × Nat) (want : Bytes) (ch : Chan) (r : Lsusb) (p : Proc) :
    Proc × Option Ctl :=
  let p := { p with execs := p.execs + 1 }
  match r.err with
  | some e => ({ p with stderr := p.stderr ++ errorText multi r e }, some (Ctl.osExit 1))
  | none =>
    if !Contains r.output want then
      ({ p with stderr := p.stderr ++ outputText multi r }, some (Ctl.osExit 1))
    else
      match ch with
      | Chan.closed => (p, some Ctl.ret)
      | Chan.tickerC => ({ p with ticks := p.ticks + 1 }, none)

/-- The `for` loop of `Run` against a script of `lsusb` results. -/
def loop (multi : Bytes → Bytes × Nat) (want : Bytes) (ch : Chan) : List Lsusb → Proc → Proc × Ctl
  | [], p => (p, Ctl.running)
  | r :: rest, p =>
    match iter multi want ch r p with
    | (p', some c) => (p', c)
    | (p', none) => loop multi want ch rest p'

/-- The function `watchCmd.Run`.  The deferred `ticker.Stop()` runs when `Run`
returns, and only then. -/
def Run (multi : Bytes → Bytes × Nat) (flags : Flags) (script : List Lsusb) : Proc × Ctl :=
  let want := GetString flags
  let frequency := GetDuration flags
  if frequency > 0 then
    match loop multi want Chan.tickerC script { Proc.start with ticker := Ticker.active } with
    | (p, Ctl.ret) => ({ p with ticker := Ticker.stopped }, Ctl.ret)
    | (p, c) => (p, c)
  else
    loop multi want Chan.closed script Proc.start

/-! ## `init` and `Execute` -/

/-- The error text of cobra's `ValidateRequiredFlags` for `device_name`. -/
def requiredFlagError : Bytes :=
  lit "required flag(s) " ++ [0x22] ++ lit "device_name" ++ [0x22] ++ lit " not set"

/-- Cobra's `ValidateRequiredFlags` on the flags declared in `init`, where
`device_name` is marked required by `MarkFlagRequired`: an error when the flag
was not given on the command line. -/
def ValidateRequiredFlags (flags : Flags) : Option Bytes :=
  match flags.device_name with
  | none => some requiredFlagError
  | some _ => none

/-- The call `rootCmd.Execute()` for the `watchusbdevices` subcommand: cobra
validates the required flags, returns the error if there is one, and calls
`Run` otherwise.  The third component is the error returned. -/
def rootCmdExecute (multi : Bytes → Bytes × Nat) (flags : Flags) (script : List Lsusb) :
    Proc × Ctl × Option Bytes :=
  match ValidateRequiredFlags flags with
  | some err => (Proc.start, Ctl.ret, some err)
  | none => ((Run multi flags script).1, (Run multi flags script).2, none)

/-- The function `Execute`: `os.Exit(1)` when `rootCmd.Execute()` returns an
error. -/
def Execute (multi : Bytes → Bytes × Nat) (flags : Flags) (script : List Lsusb) : Proc × Ctl :=
  match rootCmdExecute multi flags script with
  | (p, Ctl.ret, some _) => (p, Ctl.osExit 1)
  | (p, c, _) => (p, c)

/-- The exit status of the process: the code given to `os.Exit`, or `0` when
`Execute` returns to `main.main` and the program ends; `none` while it runs. -/
def exitStatus : Ctl → Option Nat
  | Ctl.ret => some 0
  | Ctl.osExit code => some code
  | Ctl.running => none

/-- The check on the result `r` passes: the invocation returned no error and
its output has `want` in it, so neither `os.Exit(1)` of the loop body is taken. -/
def passes (want : Bytes) (r : Lsusb) : Bool :=
  r.err.isNone && Contains r.output want

/-- Every byte of `s` is printable ASCII other than the double quote and the
backslash: the bytes that `strconv.Quote` writes as they are. -/
def plain (s : Bytes) : Bool :=
  s.all fun b => decide (0x20 ≤ b ∧ b ≤ 0x7E ∧ b ≠ 0x22 ∧ b ≠ 0x5C)

/-- A stand-in for the multi-byte path of `strconv.Quote` in the examples,
whose command lines are ASCII, so that the path is not taken (`Quote_ascii`:
on such a command line the result is the same for every `multi`). -/
def asciiOnly : Bytes → Bytes × Nat := fun _ => ([], 1)

/-- The descriptor of the example of `watchCmd`. -/
def rtl2838 : Bytes := lit "Realtek Semiconductor Corp. RTL2838 DVB-T"

/-- An `lsusb` run that succeeds and lists the device. -/
def lsusbPresent : Lsusb :=
  ⟨lit "/usr/bin/lsusb",
    lit "Bus 001 Device 004: ID 0bda:2838 Realtek Semiconductor Corp. RTL2838 DVB-T", none⟩

/-- An `lsusb` run that succeeds and does not list the device. -/
def lsusbAbsent : Lsusb :=
  ⟨lit "/usr/bin/lsusb", lit "Bus 001 Device 002: ID 1d6b:0002 Linux Foundation", none⟩

/-- An `lsusb` run that exits with status 1 after listing the device. -/
def lsusbFailed : Lsusb :=
  ⟨lit "/usr/bin/lsusb",
    lit "Bus 001 Device 004: ID 0bda:2838 Realtek Semiconductor Corp. RTL2838 DVB-T",
    some (lit "exit status 1")⟩

/-- The path of an `lsusb` found in a directory of `PATH` whose name has a
double quote in it: `/opt/my"tools/lsusb`. -/
def quotePath : Bytes := lit "/opt/my" ++ [0x22] ++ lit "tools/lsusb"

/-! ## Lemmas on `strings.Contains` and `strconv.Quote` -/

theorem indexFrom_nonneg_iff (substr s : Bytes) (i : Nat) :
    0 ≤ indexFrom substr s i ↔ substr <:+: s := by
  induction s generalizing i with
  | nil =>
    by_cases h : substr = [] <;> simp [indexFrom, h]
  | cons c cs ih =>
    rw [indexFrom, List.infix_cons_iff]
    by_cases h : substr.isPrefixOf (c :: cs) = true
    · simp only [h, if_true]
      exact ⟨fun _ => Or.inl (List.isPrefixOf_iff_prefix.mp h), fun _ => Int.ofNat_nonneg i⟩
    · simp only [h, if_false, Bool.false_eq_true]
      rw [ih]
      constructor
      · exact fun hi => Or.inr hi
      · rintro (hp | hi)
        · exact absurd (List.isPrefixOf_iff_prefix.mpr hp) h
        · exact hi

theorem Contains_iff (s substr : Bytes) :
    Contains s substr = true ↔ ∃ pre post, s = pre ++ substr ++ post := by
  unfold Contains Index
  rw [decide_eq_true_iff, ge_iff_le, indexFrom_nonneg_iff]
  constructor
  · rintro ⟨pre, post, h⟩
    exact ⟨pre, post, h.symm⟩
  · rintro ⟨pre, post, h⟩
    exact ⟨pre, post, h.symm⟩

theorem Contains_eq_false_iff (s substr : Bytes) :
    Contains s substr = false ↔ ¬ ∃ pre post, s = pre ++ substr ++ post := by
  rw [← Contains_iff, Bool.not_eq_true]

theorem Contains_nil (s : Bytes) : Contains s [] = true :=
  (Contains_iff s []).mpr ⟨[], s, rfl⟩

theorem appendEscapedRune_plain (b : Nat)
    (h : 0x20 ≤ b ∧ b ≤ 0x7E ∧ b ≠ 0x22 ∧ b ≠ 0x5C) : appendEscapedRune b = [b] := by
  unfold appendEscapedRune
  rw [if_neg (by omega), if_pos ⟨h.1, h.2.1⟩]

theorem quoteFrom_plain (multi : Bytes → Bytes × Nat) (s : Bytes) (h : plain s = true) :
    quoteFrom multi 0 s = s := by
  induction s with
  | nil => rfl
  | cons b t ih =>
    simp only [plain, List.all_cons, Bool.and_eq_true, decide_eq_true_eq] at h
    have hb : b < RuneSelf := by unfold RuneSelf; omega
    rw [quoteFrom, if_pos hb, appendEscapedRune_plain b h.1, ih (by simpa [plain] using h.2)]
    rfl

theorem Quote_plain (multi : Bytes → Bytes × Nat) (s : Bytes) (h : plain s = true) :
    Quote multi s = 0x22 :: s ++ [0x22] := by
  unfold Quote
  rw [quoteFrom_plain multi s h]

/-! ## Lemmas on the loop -/

theorem iter_err (multi : Bytes → Bytes × Nat) (want : Bytes) (ch : Chan) (r : Lsusb) (p : Proc)
    (e : Bytes) (h : r.err = some e) :
    iter multi want ch r p =
      (⟨p.execs + 1, p.ticks, p.stderr ++ errorText multi r e, p.ticker⟩, some (Ctl.osExit 1)) := by
  simp [iter, h]

theorem iter_absent (multi : Bytes → Bytes × Nat) (want : Bytes) (ch : Chan) (r : Lsusb) (p : Proc)
    (h : r.err = none) (hc : Contains r.output want = false) :
    iter multi want ch r p =
      (⟨p.execs + 1, p.ticks, p.stderr ++ outputText multi r, p.ticker⟩, some (Ctl.osExit 1)) := by
  simp [iter, h, hc]

theorem iter_pass_closed (multi : Bytes → Bytes × Nat) (want : Bytes) (r : Lsusb) (p : Proc)
    (h : passes want r = true) :
    iter multi want Chan.closed r p = (⟨p.execs + 1, p.ticks, p.stderr, p.ticker⟩, some Ctl.ret) := by
  simp only [passes, Bool.and_eq_true, Option.isNone_iff_eq_none] at h
  simp [iter, h.1, h.2]

theorem iter_pass_ticker (multi : Bytes → Bytes × Nat) (want : Bytes) (r : Lsusb) (p : Proc)
    (h : passes want r = true) :
    iter multi want Chan.tickerC r p = (⟨p.execs + 1, p.ticks + 1, p.stderr, p.ticker⟩, none) := by
  simp only [passes, Bool.and_eq_true, Option.isNone_iff_eq_none] at h
  simp [iter, h.1, h.2]

theorem iter_fail (multi : Bytes → Bytes × Nat) (want : Bytes) (ch : Chan) (r : Lsusb) (p : Proc)
    (h : passes want r = false) :
    ∃ text, iter multi want ch r p =
      (⟨p.execs + 1, p.ticks, p.stderr ++ text, p.ticker⟩, some (Ctl.osExit 1)) := by
  cases he : r.err with
  | some e => exact ⟨_, iter_err multi want ch r p e he⟩
  | none =>
    have hc : Contains r.output want = false := by
      simpa [passes, he] using h
    exact ⟨_, iter_absent multi want ch r p he hc⟩

theorem loop_ticker_pass (multi : Bytes → Bytes × Nat) (want : Bytes) (pre rest : List Lsusb)
    (p : Proc) (h : ∀ x ∈ pre, passes want x = true) :
    loop multi want Chan.tickerC (pre ++ rest) p =
      loop multi want Chan.tickerC rest
        ⟨p.execs + pre.length, p.ticks + pre.length, p.stderr, p.ticker⟩ := by
  induction pre generalizing p with
  | nil => rfl
  | cons r pre ih =>
    have hr : passes want r = true := h r (List.mem_cons_self r pre)
    have hpre : ∀ x ∈ pre, passes want x = true := fun x hx => h x (List.mem_cons_of_mem r hx)
    rw [List.cons_append, loop, iter_pass_ticker multi want r p hr]
    simp only
    rw [ih _ hpre]
    simp only [List.length_cons]
    congr 2 <;> omega

theorem loop_fail (multi : Bytes → Bytes × Nat) (want : Bytes) (ch : Chan) (r : Lsusb)
    (rest : List Lsusb) (p : Proc) (h : passes want r = false) :
    ∃ text, loop multi want ch (r :: rest) p =
      (⟨p.execs + 1, p.ticks, p.stderr ++ text, p.ticker⟩, Ctl.osExit 1) := by
  obtain ⟨text, ht⟩ := iter_fail multi want ch r p h
  exact ⟨text, by rw [loop, ht]⟩

theorem loop_pass_closed (multi : Bytes → Bytes × Nat) (want : Bytes) (r : Lsusb)
    (rest : List Lsusb) (p : Proc) (h : passes want r = true) :
    loop multi want Chan.closed (r :: rest) p =
      (⟨p.execs + 1, p.ticks, p.stderr, p.ticker⟩, Ctl.ret) := by
  rw [loop, iter_pass_closed multi want r p h]

theorem loop_ticker_ne_ret (multi : Bytes → Bytes × Nat) (want : Bytes) (script : List Lsusb)
    (p : Proc) : (loop multi want Chan.tickerC script p).2 ≠ Ctl.ret := by
  induction script generalizing p with
  | nil => simp [loop]
  | cons r rest ih =>
    cases hp : passes want r with
    | true =>
      rw [loop, iter_pass_ticker multi want r p hp]
      exact ih _
    | false =>
      obtain ⟨text, ht⟩ := loop_fail multi want Chan.tickerC r rest p hp
      rw [ht]
      simp

theorem loop_ticker_keeps (multi : Bytes → Bytes × Nat) (want : Bytes) (script : List Lsusb)
    (p : Proc) : (loop multi want Chan.tickerC script p).1.ticker = p.ticker := by
  induction script generalizing p with
  | nil => rfl
  | cons r rest ih =>
    cases hp : passes want r with
    | true =>
      rw [loop, iter_pass_ticker multi want r p hp]
      exact ih _
    | false =>
      obtain ⟨text, ht⟩ := loop_fail multi want Chan.tickerC r rest p hp
      rw [ht]

theorem Run_periodic (multi : Bytes → Bytes × Nat) (flags : Flags) (script : List Lsusb)
    (h : 0 < GetDuration flags) :
    Run multi flags script =
      loop multi (GetString flags) Chan.tickerC script ⟨0, 0, [], Ticker.active⟩ := by
  have hne := loop_ticker_ne_ret multi (GetString flags) script ⟨0, 0, [], Ticker.active⟩
  simp only [Run, gt_iff_lt, h, if_true, Proc.start]

theorem Run_oneshot (multi : Bytes → Bytes × Nat) (flags : Flags) (script : List Lsusb)
    (h : GetDuration flags ≤ 0) :
    Run multi flags script = loop multi (GetString flags) Chan.closed script Proc.start := by
  simp only [Run, gt_iff_lt, not_lt.mpr h, if_false]

theorem Execute_some (multi : Bytes → Bytes × Nat) (d : Bytes) (freq : Option Int)
    (script : List Lsusb) :
    Execute multi ⟨some d, freq⟩ script = Run multi ⟨some d, freq⟩ script := by
  simp only [Execute, rootCmdExecute, ValidateRequiredFlags]
  generalize Run multi ⟨some d, freq⟩ script = res
  obtain ⟨p, c⟩ := res
  cases c <;> rfl

theorem Execute_oneshot (multi : Bytes → Bytes × Nat) (d : Bytes) (freq : Option Int)
    (script : List Lsusb) (h : GetDuration ⟨some d, freq⟩ ≤ 0) :
    Execute multi ⟨some d, freq⟩ script = loop multi d Chan.closed script Proc.start := by
  rw [Execute_some, Run_oneshot multi _ script h]
  rfl

theorem Execute_periodic (multi : Bytes → Bytes × Nat) (d : Bytes) (freq : Option Int)
    (script : List Lsusb) (h : 0 < GetDuration ⟨some d, freq⟩) :
    Execute multi ⟨some d, freq⟩ script =
      loop multi d Chan.tickerC script ⟨0, 0, [], Ticker.active⟩ := by
  rw [Execute_some, Run_periodic multi _ script h]
  rfl

theorem passes_iff (want : Bytes) (r : Lsusb) :
    passes want r = true ↔ r.err = none ∧ ∃ pre post, r.output = pre ++ want ++ post := by
  simp only [passes, Bool.and_eq_true, Option.isNone_iff_eq_none, Contains_iff]

theorem loop_ticker_exit (multi : Bytes → Bytes × Nat) (want : Bytes) (script : List Lsusb)
    (p : Proc) :
    (loop multi want Chan.tickerC script p).2 = Ctl.running ∨
      (loop multi want Chan.tickerC script p).2 = Ctl.osExit 1 := by
  induction script generalizing p with
  | nil => exact Or.inl rfl
  | cons r rest ih =>
    cases hp : passes want r with
    | true =>
      rw [loop, iter_pass_ticker multi want r p hp]
      exact ih _
    | false =>
      obtain ⟨text, ht⟩ := loop_fail multi want Chan.tickerC r rest p hp
      rw [ht]
      exact Or.inr rfl

theorem Execute_loop (multi : Bytes → Bytes × Nat) (d : Bytes) (freq : Option Int) :
    ∃ ch tk, ∀ script,
      Execute multi ⟨some d, freq⟩ script = loop multi d ch script ⟨0, 0, [], tk⟩ := by
  by_cases hf : 0 < GetDuration ⟨some d, freq⟩
  · exact ⟨Chan.tickerC, Ticker.active, fun script => Execute_periodic multi d freq script hf⟩
  · exact ⟨Chan.closed, Ticker.absent,
      fun script => Execute_oneshot multi d freq script (not_lt.mp hf)⟩

theorem loop_err (multi : Bytes → Bytes × Nat) (want : Bytes) (ch : Chan) (r : Lsusb)
    (rest : List Lsusb) (p : Proc) (e : Bytes) (h : r.err = some e) :
    loop multi want ch (r :: rest) p =
      (⟨p.execs + 1, p.ticks, p.stderr ++ errorText multi r e, p.ticker⟩, Ctl.osExit 1) := by
  rw [loop, iter_err multi want ch r p e h]

theorem loop_absent (multi : Bytes → Bytes × Nat) (want : Bytes) (ch : Chan) (r : Lsusb)
    (rest : List Lsusb) (p : Proc) (h : r.err = none) (hc : Contains r.output want = false) :
    loop multi want ch (r :: rest) p =
      (⟨p.execs + 1, p.ticks, p.stderr ++ outputText multi r, p.ticker⟩, Ctl.osExit 1) := by
  rw [loop, iter_absent multi want ch r p h hc]

theorem quoteFrom_ascii (m1 m2 : Bytes → Bytes × Nat) (s : Bytes)
    (h : ∀ b ∈ s, b < RuneSelf) : quoteFrom m1 0 s = quoteFrom m2 0 s := by
  induction s with
  | nil => rfl
  | cons b t ih =>
    have hb : b < RuneSelf := h b (List.mem_cons_self b t)
    rw [quoteFrom, quoteFrom, if_pos hb, if_pos hb,
      ih (fun x hx => h x (List.mem_cons_of_mem b hx))]

theorem Quote_ascii (m1 m2 : Bytes → Bytes × Nat) (s : Bytes)
    (h : ∀ b ∈ s, b < RuneSelf) : Quote m1 s = Quote m2 s := by
  unfold Quote
  rw [quoteFrom_ascii m1 m2 s h]

theorem plain_in_Quote (multi : Bytes → Bytes × Nat) (c pre post : Bytes)
    (h : plain c = true) :
    ∃ s t, pre ++ Quote multi c ++ post = s ++ c ++ t := by
  rw [Quote_plain multi c h]
  exact ⟨pre ++ [0x22], [0x22] ++ post, by simp⟩

theorem oneshot_ticks (multi : Bytes → Bytes × Nat) (d : Bytes) (freq : Option Int)
    (script : List Lsusb) (h : GetDuration ⟨some d, freq⟩ ≤ 0) :
    (Execute multi ⟨some d, freq⟩ script).1.ticks = 0 := by
  rw [Execute_oneshot multi d freq script h]
  cases script with
  | nil => rfl
  | cons r rest =>
    cases hp : passes d r with
    | true => rw [loop_pass_closed multi d r rest _ hp]; rfl
    | false =>
      obtain ⟨text, ht⟩ := loop_fail multi d Chan.closed r rest Proc.start hp
      rw [ht]
      rfl

theorem loop_empty_want (multi : Bytes → Bytes × Nat) (ch : Chan) (script : List Lsusb)
    (p : Proc) (code : Nat) (h : (loop multi [] ch script p).2 = Ctl.osExit code) :
    ∃ r ∈ script, ∃ e, r.err = some e := by
  induction script generalizing p with
  | nil => simp [loop] at h
  | cons r rest ih =>
    cases he : r.err with
    | some e => exact ⟨r, List.mem_cons_self r rest, e, he⟩
    | none =>
      have hp : passes [] r = true := by simp [passes, he, Contains_nil]
      cases ch with
      | closed =>
        rw [loop_pass_closed multi [] r rest p hp] at h
        simp at h
      | tickerC =>
        rw [loop, iter_pass_ticker multi [] r p hp] at h
        obtain ⟨r2, hr2, e, he2⟩ := ih _ h
        exact ⟨r2, List.mem_cons_of_mem r hr2, e, he2⟩

/-- In periodic mode the ticker is created and is never stopped, however the
run ends; in one-shot mode no ticker is created. -/
theorem ticker_never_stopped (multi : Bytes → Bytes × Nat) (d : Bytes) (freq : Option Int)
    (script : List Lsusb) :
    (0 < GetDuration ⟨some d, freq⟩ →
      (Execute multi ⟨some d, freq⟩ script).1.ticker = Ticker.active) ∧
    (GetDuration ⟨some d, freq⟩ ≤ 0 →
      (Execute multi ⟨some d, freq⟩ script).1.ticker = Ticker.absent) := by
  constructor
  · intro hf
    rw [Execute_periodic multi d freq script hf]
    exact loop_ticker_keeps multi d script _
  · intro hle
    rw [Execute_oneshot multi d freq script hle]
    cases script with
    | nil => rfl
    | cons r rest =>
      cases hp : passes d r with
      | true => rw [loop_pass_closed multi d r rest _ hp]; rfl
      | false =>
        obtain ⟨text, ht⟩ := loop_fail multi d Chan.closed r rest Proc.start hp
        rw [ht]
        rfl

/-! ## The claims -/

/-- C1: for every target descriptor `d` (the non-empty ones among them) and
every captured output `o` of a successful invocation, the pass through the loop
body does not take a failure branch (`os.Exit(1)`) if and only if `o` contains
`d` as a contiguous run of exactly the same bytes. -/
theorem check_passes_iff_substring (multi : Bytes → Bytes × Nat) (d c o : Bytes) (ch : Chan)
    (p : Proc) :
    (iter multi d ch ⟨c, o, none⟩ p).2 ≠ some (Ctl.osExit 1) ↔
      ∃ pre post, o = pre ++ d ++ post := by
  rw [← Contains_iff]
  cases hc : Contains o d with
  | false =>
    rw [iter_absent multi d ch ⟨c, o, none⟩ p rfl hc]
    simp
  | true =>
    have hp : passes d ⟨c, o, none⟩ = true := by simp [passes, hc]
    cases ch with
    | closed =>
      rw [iter_pass_closed multi d _ p hp]
      simp
    | tickerC =>
      rw [iter_pass_ticker multi d _ p hp]
      simp

/-- C2, as stated, fails: with the interval `-5s` and a first check that
passes, the run ends with exit status 0 although the interval is not zero. -/
theorem negative_interval_exits_zero :
    exitStatus (Execute asciiOnly ⟨some (lit "RTL2838 DVB-T"), some (-5000000000)⟩
      [⟨lit "/usr/bin/lsusb",
        lit "Bus 001 Device 004: ID 0bda:2838 Realtek Semiconductor Corp. RTL2838 DVB-T",
        none⟩]).2 = some 0 ∧
    GetDuration ⟨some (lit "RTL2838 DVB-T"), some (-5000000000)⟩ ≠ 0 := by
  decide

/-- C2, amended: a run of the watch loop that ends exits with status 0 if and
only if the check interval is not positive (zero or negative) and the first,
single check passed (the invocation returned no error and its output contains
the descriptor); every run that ends exits with 0 or 1, a run that exits with 0
made exactly one invocation, and no run with a positive interval exits with 0. -/
theorem exit_zero_iff (multi : Bytes → Bytes × Nat) (d : Bytes) (freq : Option Int)
    (script : List Lsusb) :
    (exitStatus (Execute multi ⟨some d, freq⟩ script).2 = some 0 ↔
      GetDuration ⟨some d, freq⟩ ≤ 0 ∧
        ∃ r rest, script = r :: rest ∧ r.err = none ∧ ∃ pre post, r.output = pre ++ d ++ post) ∧
    (exitStatus (Execute multi ⟨some d, freq⟩ script).2 = none ∨
      (exitStatus (Execute multi ⟨some d, freq⟩ script).2 = some 0 ∧
        (Execute multi ⟨some d, freq⟩ script).1.execs = 1) ∨
      exitStatus (Execute multi ⟨some d, freq⟩ script).2 = some 1) ∧
    ¬ (0 < GetDuration ⟨some d, freq⟩ ∧
      exitStatus (Execute multi ⟨some d, freq⟩ script).2 = some 0) := by
  by_cases hf : 0 < GetDuration ⟨some d, freq⟩
  · rw [Execute_periodic multi d freq script hf]
    rcases loop_ticker_exit multi d script ⟨0, 0, [], Ticker.active⟩ with h | h
    · rw [h]
      refine ⟨⟨fun h0 => by simp [exitStatus] at h0, fun h0 => absurd hf (not_lt.mpr h0.1)⟩,
        Or.inl rfl, fun h0 => by simp [exitStatus] at h0⟩
    · rw [h]
      refine ⟨⟨fun h0 => by simp [exitStatus] at h0, fun h0 => absurd hf (not_lt.mpr h0.1)⟩,
        Or.inr (Or.inr rfl), fun h0 => by simp [exitStatus] at h0⟩
  · have hle : GetDuration ⟨some d, freq⟩ ≤ 0 := not_lt.mp hf
    rw [Execute_oneshot multi d freq script hle]
    cases script with
    | nil =>
      refine ⟨⟨fun h0 => by simp [loop, exitStatus] at h0, ?_⟩, Or.inl rfl, fun h0 => hf h0.1⟩
      rintro ⟨_, r, rest, hs, _⟩
      exact absurd hs (List.noConfusion)
    | cons r rest =>
      cases hp : passes d r with
      | true =>
        rw [loop_pass_closed multi d r rest _ hp]
        have hp2 := (passes_iff d r).mp hp
        exact ⟨⟨fun _ => ⟨hle, r, rest, rfl, hp2.1, hp2.2⟩, fun _ => rfl⟩,
          Or.inr (Or.inl ⟨rfl, rfl⟩), fun h0 => hf h0.1⟩
      | false =>
        obtain ⟨text, ht⟩ := loop_fail multi d Chan.closed r rest Proc.start hp
        rw [ht]
        refine ⟨⟨fun h0 => by simp [exitStatus] at h0, ?_⟩, Or.inr (Or.inr rfl),
          fun h0 => hf h0.1⟩
        rintro ⟨_, r2, rest2, hs, he, hc⟩
        have hr : r = r2 := (List.cons.inj hs).1
        subst hr
        have : passes d r = true := (passes_iff d r).mpr ⟨he, hc⟩
        rw [hp] at this
        exact absurd this (by simp)

/-- C3: in periodic mode (interval > 0), when the first failing check
(invocation error or descriptor absent) comes after exactly `n` passing checks,
the run makes exactly `n + 1` invocations and `n` timer waits and ends with
exit status 1, whatever results the script holds after the failing one; and
while no check has failed (any `k` of the passing results consumed) the loop is
still running, with as many waits as invocations. -/
theorem periodic_stops_at_first_failure (multi : Bytes → Bytes × Nat) (d : Bytes) (f : Int)
    (pre : List Lsusb) (r : Lsusb) (rest : List Lsusb)
    (hf : 0 < f) (hpre : ∀ x ∈ pre, passes d x = true) (hr : passes d r = false) :
    (Execute multi ⟨some d, some f⟩ (pre ++ r :: rest)).1.execs = pre.length + 1 ∧
    (Execute multi ⟨some d, some f⟩ (pre ++ r :: rest)).1.ticks = pre.length ∧
    exitStatus (Execute multi ⟨some d, some f⟩ (pre ++ r :: rest)).2 = some 1 ∧
    ∀ k, (Execute multi ⟨some d, some f⟩ (pre.take k)).2 = Ctl.running ∧
      (Execute multi ⟨some d, some f⟩ (pre.take k)).1.execs = min k pre.length ∧
      (Execute multi ⟨some d, some f⟩ (pre.take k)).1.ticks = min k pre.length := by
  have hg : 0 < GetDuration ⟨some d, some f⟩ := hf
  obtain ⟨text, ht⟩ := loop_fail multi d Chan.tickerC r rest
    ⟨0 + pre.length, 0 + pre.length, [], Ticker.active⟩ hr
  have hrun : Execute multi ⟨some d, some f⟩ (pre ++ r :: rest) =
      (⟨0 + pre.length + 1, 0 + pre.length, [] ++ text, Ticker.active⟩, Ctl.osExit 1) := by
    rw [Execute_periodic multi d (some f) _ hg, loop_ticker_pass multi d pre (r :: rest) _ hpre, ht]
  refine ⟨by rw [hrun]; simp, by rw [hrun]; simp, by rw [hrun]; rfl, fun k => ?_⟩
  have hk : ∀ x ∈ pre.take k, passes d x = true := fun x hx => hpre x (List.mem_of_mem_take hx)
  have hrun2 : Execute multi ⟨some d, some f⟩ (pre.take k) =
      (⟨0 + (pre.take k).length, 0 + (pre.take k).length, [], Ticker.active⟩, Ctl.running) := by
    have h2 := loop_ticker_pass multi d (pre.take k) [] ⟨0, 0, [], Ticker.active⟩ hk
    rw [List.append_nil] at h2
    rw [Execute_periodic multi d (some f) _ hg, h2]
    rfl
  rw [hrun2]
  simp [List.length_take]

/-- C3, the example: the device is listed on checks 1 and 2 and missing on
check 3, with the interval 10ms. -/
theorem periodic_stops_at_first_failure_witness :
    (0 : Int) < 10000000 ∧
    (∀ x ∈ [lsusbPresent, lsusbPresent], passes rtl2838 x = true) ∧
    passes rtl2838 lsusbAbsent = false ∧
    (Execute asciiOnly ⟨some rtl2838, some 10000000⟩
      ([lsusbPresent, lsusbPresent] ++ lsusbAbsent :: [])).1.execs = 3 ∧
    (Execute asciiOnly ⟨some rtl2838, some 10000000⟩
      ([lsusbPresent, lsusbPresent] ++ lsusbAbsent :: [])).1.ticks = 2 ∧
    exitStatus (Execute asciiOnly ⟨some rtl2838, some 10000000⟩
      ([lsusbPresent, lsusbPresent] ++ lsusbAbsent :: [])).2 = some 1 :=
  ⟨by decide, by decide, by decide,
    (periodic_stops_at_first_failure asciiOnly rtl2838 10000000 [lsusbPresent, lsusbPresent]
      lsusbAbsent [] (by decide) (by decide) (by decide)).1,
    (periodic_stops_at_first_failure asciiOnly rtl2838 10000000 [lsusbPresent, lsusbPresent]
      lsusbAbsent [] (by decide) (by decide) (by decide)).2.1,
    (periodic_stops_at_first_failure asciiOnly rtl2838 10000000 [lsusbPresent, lsusbPresent]
      lsusbAbsent [] (by decide) (by decide) (by decide)).2.2.1⟩

/-- C4: in one-shot mode (interval zero, given as `0` or left at its default),
for every descriptor and every result of the first invocation (passing,
descriptor absent or error), the run ends after exactly one invocation, with no
timer wait and no ticker created, whatever the script holds after it. -/
theorem oneshot_single_check (multi : Bytes → Bytes × Nat) (d : Bytes) (r : Lsusb)
    (rest : List Lsusb) :
    ((Execute multi ⟨some d, some 0⟩ (r :: rest)).1.execs = 1 ∧
      (Execute multi ⟨some d, some 0⟩ (r :: rest)).1.ticks = 0 ∧
      (Execute multi ⟨some d, some 0⟩ (r :: rest)).1.ticker = Ticker.absent ∧
      (Execute multi ⟨some d, some 0⟩ (r :: rest)).2 ≠ Ctl.running) ∧
    ((Execute multi ⟨some d, none⟩ (r :: rest)).1.execs = 1 ∧
      (Execute multi ⟨some d, none⟩ (r :: rest)).1.ticks = 0 ∧
      (Execute multi ⟨some d, none⟩ (r :: rest)).1.ticker = Ticker.absent ∧
      (Execute multi ⟨some d, none⟩ (r :: rest)).2 ≠ Ctl.running) := by
  have key : ∀ freq : Option Int, GetDuration ⟨some d, freq⟩ ≤ 0 →
      (Execute multi ⟨some d, freq⟩ (r :: rest)).1.execs = 1 ∧
      (Execute multi ⟨some d, freq⟩ (r :: rest)).1.ticks = 0 ∧
      (Execute multi ⟨some d, freq⟩ (r :: rest)).1.ticker = Ticker.absent ∧
      (Execute multi ⟨some d, freq⟩ (r :: rest)).2 ≠ Ctl.running := by
    intro freq hle
    rw [Execute_oneshot multi d freq _ hle]
    cases hp : passes d r with
    | true =>
      rw [loop_pass_closed multi d r rest _ hp]
      exact ⟨rfl, rfl, rfl, by simp⟩
    | false =>
      obtain ⟨text, ht⟩ := loop_fail multi d Chan.closed r rest Proc.start hp
      rw [ht]
      exact ⟨rfl, rfl, rfl, by simp⟩
  exact ⟨key (some 0) (le_refl _), key none (le_refl _)⟩

/-- C5, as stated, fails: when `lsusb` is found as `/opt/my"tools/lsusb` and
exits with status 1, the run ends with status 1 and the text on the error
stream is `"/opt/my\"tools/lsusb" error: exit status 1`, which has the error
text in it but not the command line (the `%q` verb wrote its double quote with
a backslash). -/
theorem error_text_lacks_raw_cmdline :
    exitStatus (Execute asciiOnly ⟨some rtl2838, some 0⟩
      [⟨quotePath, [], some (lit "exit status 1")⟩]).2 = some 1 ∧
    (Execute asciiOnly ⟨some rtl2838, some 0⟩
      [⟨quotePath, [], some (lit "exit status 1")⟩]).1.stderr =
      [0x22] ++ lit "/opt/my" ++ [0x5C, 0x22] ++ lit "tools/lsusb" ++ [0x22] ++
        lit " error: exit status 1" ++ [0x0A] ∧
    ¬ ∃ pre post, (Execute asciiOnly ⟨some rtl2838, some 0⟩
      [⟨quotePath, [], some (lit "exit status 1")⟩]).1.stderr = pre ++ quotePath ++ post :=
  ⟨by decide, by decide, (Contains_eq_false_iff _ _).mp (by decide)⟩

/-- C5, amended: for every descriptor, every interval and every captured
output (one with the descriptor in it too), when the first invocation returns an
error the run ends on that iteration with exit status 1, after one invocation
and no wait, whatever the output is; the text on the error stream is the command
line as the `%q` verb writes it (in double quotes, escaped by `strconv.Quote`),
then ` error: `, the error text and a newline, so it contains the quoted command
line and the error text, and the command line itself when that is made of
printable ASCII without double quote and backslash. -/
theorem invocation_error_ends_run (multi : Bytes → Bytes × Nat) (d : Bytes) (freq : Option Int)
    (c o e : Bytes) (rest : List Lsusb) :
    exitStatus (Execute multi ⟨some d, freq⟩ (⟨c, o, some e⟩ :: rest)).2 = some 1 ∧
    (Execute multi ⟨some d, freq⟩ (⟨c, o, some e⟩ :: rest)).1.execs = 1 ∧
    (Execute multi ⟨some d, freq⟩ (⟨c, o, some e⟩ :: rest)).1.ticks = 0 ∧
    (∀ o2 rest2, Execute multi ⟨some d, freq⟩ (⟨c, o2, some e⟩ :: rest2) =
      Execute multi ⟨some d, freq⟩ (⟨c, o, some e⟩ :: rest)) ∧
    (Execute multi ⟨some d, freq⟩ (⟨c, o, some e⟩ :: rest)).1.stderr =
      Quote multi c ++ lit " error: " ++ e ++ [0x0A] ∧
    (∃ pre post, (Execute multi ⟨some d, freq⟩ (⟨c, o, some e⟩ :: rest)).1.stderr =
      pre ++ Quote multi c ++ post) ∧
    (∃ pre post, (Execute multi ⟨some d, freq⟩ (⟨c, o, some e⟩ :: rest)).1.stderr =
      pre ++ e ++ post) ∧
    (plain c = true →
      ∃ pre post, (Execute multi ⟨some d, freq⟩ (⟨c, o, some e⟩ :: rest)).1.stderr =
        pre ++ c ++ post) := by
  obtain ⟨ch, tk, hE⟩ := Execute_loop multi d freq
  have hrun : ∀ o2 rest2, Execute multi ⟨some d, freq⟩ (⟨c, o2, some e⟩ :: rest2) =
      (⟨1, 0, Quote multi c ++ lit " error: " ++ e ++ [0x0A], tk⟩, Ctl.osExit 1) := by
    intro o2 rest2
    rw [hE, loop_err multi d ch ⟨c, o2, some e⟩ rest2 _ e rfl]
    simp [errorText]
  refine ⟨by rw [hrun]; rfl, by rw [hrun], by rw [hrun],
    fun o2 rest2 => by rw [hrun, hrun], by rw [hrun], ?_, ?_, ?_⟩
  · rw [hrun]
    exact ⟨[], lit " error: " ++ e ++ [0x0A], by simp⟩
  · rw [hrun]
    exact ⟨Quote multi c ++ lit " error: ", [0x0A], by simp⟩
  · intro hc
    rw [hrun]
    obtain ⟨s, t, hst⟩ := plain_in_Quote multi c [] (lit " error: " ++ e ++ [0x0A]) hc
    exact ⟨s, t, by rw [← hst]; simp⟩

/-- C5, amended, the example: `/usr/bin/lsusb` exits with status 1 after
listing the device. -/
theorem invocation_error_ends_run_witness :
    plain (lit "/usr/bin/lsusb") = true ∧
    ∃ pre post, (Execute asciiOnly ⟨some rtl2838, some 0⟩ (lsusbFailed :: [])).1.stderr =
      pre ++ lit "/usr/bin/lsusb" ++ post :=
  ⟨by decide,
    (invocation_error_ends_run asciiOnly rtl2838 (some 0) (lit "/usr/bin/lsusb")
      lsusbFailed.output (lit "exit status 1") []).2.2.2.2.2.2.2 (by decide)⟩

/-- C6, as stated, fails: with the descriptor and the output of the example
and `lsusb` found as `/opt/my"tools/lsusb`, the run ends with status 1 and the
text on the error stream has the whole output in it but not the command line
(the `%q` verb wrote its double quote with a backslash). -/
theorem output_text_lacks_raw_cmdline :
    exitStatus (Execute asciiOnly ⟨some rtl2838, some 0⟩
      [⟨quotePath, lsusbAbsent.output, none⟩]).2 = some 1 ∧
    (Execute asciiOnly ⟨some rtl2838, some 0⟩
      [⟨quotePath, lsusbAbsent.output, none⟩]).1.stderr =
      [0x22] ++ lit "/opt/my" ++ [0x5C, 0x22] ++ lit "tools/lsusb" ++ [0x22] ++
        lit " output:" ++ [0x0A] ++ lit "Bus 001 Device 002: ID 1d6b:0002 Linux Foundation" ++
        [0x0A] ∧
    ¬ ∃ pre post, (Execute asciiOnly ⟨some rtl2838, some 0⟩
      [⟨quotePath, lsusbAbsent.output, none⟩]).1.stderr = pre ++ quotePath ++ post :=
  ⟨by decide, by decide, (Contains_eq_false_iff _ _).mp (by decide)⟩

/-- C6, amended: for every descriptor `d` and every captured output `o` of a
successful invocation that does not contain `d`, reached on the first check or,
in periodic mode, after checks that passed, the run ends with exit status 1,
whatever the script holds after it; the text on the error stream is the command
line as the `%q` verb writes it (in double quotes, escaped by `strconv.Quote`),
then ` output:`, a newline, the whole of `o` and a newline, so it contains the
quoted command line and `o` verbatim, and the command line itself when that is
made of printable ASCII without double quote and backslash. -/
theorem absent_descriptor_ends_run (multi : Bytes → Bytes × Nat) (d : Bytes)
    (freq : Option Int) (pre : List Lsusb) (c o : Bytes) (rest : List Lsusb)
    (hpre : ∀ x ∈ pre, passes d x = true)
    (hmode : 0 < GetDuration ⟨some d, freq⟩ ∨ pre = [])
    (habs : ¬ ∃ s t, o = s ++ d ++ t) :
    exitStatus (Execute multi ⟨some d, freq⟩ (pre ++ ⟨c, o, none⟩ :: rest)).2 = some 1 ∧
    (Execute multi ⟨some d, freq⟩ (pre ++ ⟨c, o, none⟩ :: rest)).1.execs = pre.length + 1 ∧
    (Execute multi ⟨some d, freq⟩ (pre ++ ⟨c, o, none⟩ :: rest)).1.stderr =
      Quote multi c ++ lit " output:" ++ [0x0A] ++ o ++ [0x0A] ∧
    (∃ s t, (Execute multi ⟨some d, freq⟩ (pre ++ ⟨c, o, none⟩ :: rest)).1.stderr =
      s ++ Quote multi c ++ t) ∧
    (∃ s t, (Execute multi ⟨some d, freq⟩ (pre ++ ⟨c, o, none⟩ :: rest)).1.stderr =
      s ++ o ++ t) ∧
    (plain c = true →
      ∃ s t, (Execute multi ⟨some d, freq⟩ (pre ++ ⟨c, o, none⟩ :: rest)).1.stderr =
        s ++ c ++ t) := by
  have hc : Contains o d = false := (Contains_eq_false_iff o d).mpr habs
  have hrun : ∃ tk, Execute multi ⟨some d, freq⟩ (pre ++ ⟨c, o, none⟩ :: rest) =
      (⟨pre.length + 1, pre.length, Quote multi c ++ lit " output:" ++ [0x0A] ++ o ++ [0x0A], tk⟩,
        Ctl.osExit 1) := by
    rcases hmode with hf | hnil
    · refine ⟨Ticker.active, ?_⟩
      rw [Execute_periodic multi d freq _ hf, loop_ticker_pass multi d pre _ _ hpre,
        loop_absent multi d Chan.tickerC ⟨c, o, none⟩ rest _ rfl hc]
      simp [outputText]
    · subst hnil
      obtain ⟨ch, tk, hE⟩ := Execute_loop multi d freq
      refine ⟨tk, ?_⟩
      rw [List.nil_append, hE, loop_absent multi d ch ⟨c, o, none⟩ rest _ rfl hc]
      simp [outputText]
  obtain ⟨tk, hrun⟩ := hrun
  refine ⟨by rw [hrun]; rfl, by rw [hrun], by rw [hrun], ?_, ?_, ?_⟩
  · rw [hrun]
    exact ⟨[], lit " output:" ++ [0x0A] ++ o ++ [0x0A], by simp⟩
  · rw [hrun]
    exact ⟨Quote multi c ++ lit " output:" ++ [0x0A], [0x0A], by simp⟩
  · intro hp
    rw [hrun]
    obtain ⟨s, t, hst⟩ := plain_in_Quote multi c [] (lit " output:" ++ [0x0A] ++ o ++ [0x0A]) hp
    exact ⟨s, t, by rw [← hst]; simp⟩

/-- C6, amended, the example: the descriptor `Realtek Semiconductor Corp.
RTL2838 DVB-T` and the output `Bus 001 Device 002: ID 1d6b:0002 Linux
Foundation` of `/usr/bin/lsusb`, on the first check of a one-shot run. -/
theorem absent_descriptor_ends_run_witness :
    (∀ x ∈ ([] : List Lsusb), passes rtl2838 x = true) ∧
    (0 < GetDuration ⟨some rtl2838, some 0⟩ ∨ ([] : List Lsusb) = []) ∧
    (¬ ∃ s t, lit "Bus 001 Device 002: ID 1d6b:0002 Linux Foundation" = s ++ rtl2838 ++ t) ∧
    exitStatus (Execute asciiOnly ⟨some rtl2838, some 0⟩
      ([] ++ ⟨lit "/usr/bin/lsusb", lit "Bus 001 Device 002: ID 1d6b:0002 Linux Foundation",
        none⟩ :: [])).2 = some 1 ∧
    ∃ s t, (Execute asciiOnly ⟨some rtl2838, some 0⟩
      ([] ++ ⟨lit "/usr/bin/lsusb", lit "Bus 001 Device 002: ID 1d6b:0002 Linux Foundation",
        none⟩ :: [])).1.stderr =
      s ++ lit "Bus 001 Device 002: ID 1d6b:0002 Linux Foundation" ++ t :=
  ⟨by decide, Or.inr rfl, (Contains_eq_false_iff _ _).mp (by decide),
    (absent_descriptor_ends_run asciiOnly rtl2838 (some 0) []
      (lit "/usr/bin/lsusb") (lit "Bus 001 Device 002: ID 1d6b:0002 Linux Foundation") []
      (by decide) (Or.inr rfl) ((Contains_eq_false_iff _ _).mp (by decide))).1,
    (absent_descriptor_ends_run asciiOnly rtl2838 (some 0) []
      (lit "/usr/bin/lsusb") (lit "Bus 001 Device 002: ID 1d6b:0002 Linux Foundation") []
      (by decide) (Or.inr rfl) ((Contains_eq_false_iff _ _).mp (by decide))).2.2.2.2.1⟩

/-- C7: whenever `--device_name` is omitted, whatever the interval and
whatever `lsusb` would produce, `rootCmd.Execute()` returns the required-flag
error, `Execute` ends the process with exit status 1, and no inventory command
was invoked (the loop never starts: nothing waited for, nothing written by
`Run`, no ticker). -/
theorem missing_device_name_fails (multi : Bytes → Bytes × Nat) (freq : Option Int)
    (script : List Lsusb) :
    (rootCmdExecute multi ⟨none, freq⟩ script).2.2 = some requiredFlagError ∧
    exitStatus (Execute multi ⟨none, freq⟩ script).2 = some 1 ∧
    (Execute multi ⟨none, freq⟩ script).1.execs = 0 ∧
    (Execute multi ⟨none, freq⟩ script).1 = Proc.start :=
  ⟨rfl, rfl, rfl, rfl⟩

/-- C8 fails on the code: with the interval 10ms and a first check that does
not find the device, the ticker has been created and the process ends through
`os.Exit(1)` with the ticker still running: the deferred `ticker.Stop()` has
not run. -/
theorem ticker_running_at_exit :
    (Execute asciiOnly ⟨some rtl2838, some 10000000⟩ [lsusbAbsent]).2 = Ctl.osExit 1 ∧
    (Execute asciiOnly ⟨some rtl2838, some 10000000⟩ [lsusbAbsent]).1.ticker = Ticker.active ∧
    (Execute asciiOnly ⟨some rtl2838, some 10000000⟩ [lsusbFailed]).2 = Ctl.osExit 1 ∧
    (Execute asciiOnly ⟨some rtl2838, some 10000000⟩ [lsusbFailed]).1.ticker = Ticker.active := by
  decide

/-- C9: for every negative interval the run is the run for interval zero: the
same process state and the same end, whatever the script; no ticker is created,
`rootCmd.Execute()` returns no error, and once the first invocation has
returned exactly one invocation was made, with exit status 0 when that check
passes. -/
theorem negative_interval_is_oneshot (multi : Bytes → Bytes × Nat) (d : Bytes) (f : Int)
    (script : List Lsusb) (hf : f < 0) :
    Execute multi ⟨some d, some f⟩ script = Execute multi ⟨some d, some 0⟩ script ∧
    (Execute multi ⟨some d, some f⟩ script).1.ticker = Ticker.absent ∧
    (Execute multi ⟨some d, some f⟩ script).1.ticks = 0 ∧
    (rootCmdExecute multi ⟨some d, some f⟩ script).2.2 = none ∧
    ∀ r rest, script = r :: rest →
      (Execute multi ⟨some d, some f⟩ script).1.execs = 1 ∧
      (passes d r = true → exitStatus (Execute multi ⟨some d, some f⟩ script).2 = some 0) := by
  have hle : GetDuration ⟨some d, some f⟩ ≤ 0 := le_of_lt hf
  have h0 : GetDuration ⟨some d, some 0⟩ ≤ 0 := le_refl _
  have hone := (oneshot_ticks multi d (some f) script hle)
  refine ⟨by rw [Execute_oneshot multi d _ script hle, Execute_oneshot multi d _ script h0],
    (ticker_never_stopped multi d (some f) script).2 hle, hone, rfl, ?_⟩
  rintro r rest rfl
  rw [Execute_oneshot multi d _ _ hle]
  cases hp : passes d r with
  | true =>
    rw [loop_pass_closed multi d r rest _ hp]
    exact ⟨rfl, fun _ => rfl⟩
  | false =>
    obtain ⟨text, ht⟩ := loop_fail multi d Chan.closed r rest Proc.start hp
    rw [ht]
    exact ⟨rfl, fun h => absurd h (by simp)⟩

/-- C9, the example: `--frequency=-5s` with a first check that passes. -/
theorem negative_interval_is_oneshot_witness :
    (-5000000000 : Int) < 0 ∧
    Execute asciiOnly ⟨some rtl2838, some (-5000000000)⟩ [lsusbPresent] =
      Execute asciiOnly ⟨some rtl2838, some 0⟩ [lsusbPresent] ∧
    (Execute asciiOnly ⟨some rtl2838, some (-5000000000)⟩ [lsusbPresent]).1.ticker =
      Ticker.absent ∧
    (Execute asciiOnly ⟨some rtl2838, some (-5000000000)⟩ [lsusbPresent]).1.execs = 1 ∧
    exitStatus (Execute asciiOnly ⟨some rtl2838, some (-5000000000)⟩ [lsusbPresent]).2 =
      some 0 :=
  ⟨by decide,
    (negative_interval_is_oneshot asciiOnly rtl2838 (-5000000000) [lsusbPresent]
      (by decide)).1,
    (negative_interval_is_oneshot asciiOnly rtl2838 (-5000000000) [lsusbPresent]
      (by decide)).2.1,
    ((negative_interval_is_oneshot asciiOnly rtl2838 (-5000000000) [lsusbPresent]
      (by decide)).2.2.2.2 lsusbPresent [] rfl).1,
    ((negative_interval_is_oneshot asciiOnly rtl2838 (-5000000000) [lsusbPresent]
      (by decide)).2.2.2.2 lsusbPresent [] rfl).2 (by decide)⟩

/-- C10: with the empty descriptor (`--device_name=` with an empty value) the
required-flag validation passes, the check passes for every captured output of a
successful invocation, the empty output too, and a run that ends with a non-zero
exit status has met an invocation that returned an error. -/
theorem empty_descriptor_always_passes (multi : Bytes → Bytes × Nat) (freq : Option Int)
    (c o : Bytes) (ch : Chan) (p : Proc) (script : List Lsusb) :
    ValidateRequiredFlags ⟨some [], freq⟩ = none ∧
    (iter multi [] ch ⟨c, o, none⟩ p).2 ≠ some (Ctl.osExit 1) ∧
    (iter multi [] ch ⟨c, [], none⟩ p).2 ≠ some (Ctl.osExit 1) ∧
    (∀ code, exitStatus (Execute multi ⟨some [], freq⟩ script).2 = some code → code ≠ 0 →
      ∃ r ∈ script, ∃ e, r.err = some e) := by
  have hiter : ∀ o2 : Bytes, (iter multi [] ch ⟨c, o2, none⟩ p).2 ≠ some (Ctl.osExit 1) := by
    intro o2
    have hp : passes [] ⟨c, o2, none⟩ = true := by simp [passes, Contains_nil]
    cases ch with
    | closed => rw [iter_pass_closed multi [] _ p hp]; simp
    | tickerC => rw [iter_pass_ticker multi [] _ p hp]; simp
  refine ⟨rfl, hiter o, hiter [], ?_⟩
  intro code hcode hne
  obtain ⟨ch2, tk, hE⟩ := Execute_loop multi [] freq
  rw [hE] at hcode
  cases hc : (loop multi [] ch2 script ⟨0, 0, [], tk⟩).2 with
  | ret =>
    rw [hc] at hcode
    simp only [exitStatus, Option.some.injEq] at hcode
    exact absurd hcode.symm hne
  | running =>
    rw [hc] at hcode
    simp [exitStatus] at hcode
  | osExit k => exact loop_empty_want multi ch2 script _ k hc

/-- C10, the example: with the empty descriptor a periodic run passes the
check on an empty output and ends on the invocation that fails. -/
theorem empty_descriptor_always_passes_witness :
    exitStatus (Execute asciiOnly ⟨some [], some 10000000⟩
      [⟨lit "/usr/bin/lsusb", [], none⟩, lsusbFailed]).2 = some 1 ∧
    (1 : Nat) ≠ 0 ∧
    ∃ r ∈ [⟨lit "/usr/bin/lsusb", [], none⟩, lsusbFailed], ∃ e, r.err = some e :=
  ⟨by decide, by decide,
    (empty_descriptor_always_passes asciiOnly (some 10000000) [] [] Chan.tickerC Proc.start
      [⟨lit "/usr/bin/lsusb", [], none⟩, lsusbFailed]).2.2.2 1 (by decide) (by decide)⟩

end RtlsdrMonitoring
